import Mathlib

/-!
# Verification of the PyHealth tokenizer (`pyhealth/tokenizer.py`)

A shallow embedding of the `Vocabulary` and `Tokenizer` classes from
`pyhealth/tokenizer.py`, together with proofs of the specified properties.

Modelling conventions:
* A Python `dict` is an association list in insertion order (`add_token`
  only ever inserts absent keys, so keys stay distinct).  `dictGet` is the
  (partial) subscript / membership test.
* Fallible Python code (a `raise`, `max([])`, a missing dict key) is
  embedded in `Except String`; the error strings mirror CPython's messages.
* A list comprehension whose body may raise is `exceptMap`, which evaluates
  left to right and stops at the first error, as Python does.
-/

set_option autoImplicit false

namespace PyHealth

/-- First-match association-list lookup: `d[k]` / `k in d` for a Python dict
(keys are unique in every dict this development builds). -/
def dictGet {α β : Type} [DecidableEq α] (k : α) : List (α × β) → Option β
  | [] => none
  | p :: ps => if p.1 = k then some p.2 else dictGet k ps

/-- Python `max(list)` on a list of naturals: raises `ValueError` on `[]`. -/
def pyMax (l : List Nat) : Except String Nat :=
  match l with
  | [] => .error "max() arg is an empty sequence"
  | x :: xs => .ok (xs.foldl Nat.max x)

/-- A list comprehension `[f x for x in l]` whose body may raise: left to
right, first error aborts the whole comprehension. -/
def exceptMap {α β : Type} (f : α → Except String β) : List α → Except String (List β)
  | [] => .ok []
  | x :: xs => do
    let y ← f x
    let ys ← exceptMap f xs
    pure (y :: ys)

instance instDecEqExcept {ε α : Type} [DecidableEq ε] [DecidableEq α] :
    DecidableEq (Except ε α) := fun x y =>
  match x, y with
  | .error e, .error e' =>
    if h : e = e' then .isTrue (congrArg Except.error h)
    else .isFalse (fun hc => h (Except.error.inj hc))
  | .error _, .ok _ => .isFalse (fun hc => Except.noConfusion hc)
  | .ok _, .error _ => .isFalse (fun hc => Except.noConfusion hc)
  | .ok a, .ok a' =>
    if h : a = a' then .isTrue (congrArg Except.ok h)
    else .isFalse (fun hc => h (Except.ok.inj hc))

/-- The `Vocabulary` class: token→index dict, index→token dict, and the
next-free-index counter `idx`. -/
structure Vocabulary where
  token2idx : List (String × Nat)
  idx2token : List (Nat × String)
  idx : Nat
deriving Repr, DecidableEq

/-- `Vocabulary.add_token`: register `token` at the next free index unless it
is already present (then a no-op). -/
def Vocabulary.add_token (v : Vocabulary) (token : String) : Vocabulary :=
  if (dictGet token v.token2idx).isSome then v
  else
    { token2idx := v.token2idx ++ [(token, v.idx)]
      idx2token := v.idx2token ++ [(v.idx, token)]
      idx := v.idx + 1 }

/-- `Vocabulary.__init__`: add `special_tokens ++ tokens` in order to an empty
vocabulary (`special_tokens` defaults to `[]` at the call sites). -/
def Vocabulary.build (tokens : List String) (special_tokens : List String) : Vocabulary :=
  (special_tokens ++ tokens).foldl Vocabulary.add_token ⟨[], [], 0⟩

/-- `Vocabulary.__call__`: the index of `token`; on a miss fall back to the
index of `"<unk>"`, and raise `ValueError` if that is absent too. -/
def Vocabulary.call (v : Vocabulary) (token : String) : Except String Nat :=
  match dictGet token v.token2idx with
  | some i => .ok i
  | none =>
    match dictGet "<unk>" v.token2idx with
    | some i => .ok i
    | none => .error ("Unknown token: " ++ token)

/-- `Vocabulary.__len__`. -/
def Vocabulary.size (v : Vocabulary) : Nat :=
  v.token2idx.length

/-- `self.vocabulary.idx2token[idx]`: raises `KeyError` on a missing index. -/
def Vocabulary.reverse (v : Vocabulary) (i : Nat) : Except String String :=
  match dictGet i v.idx2token with
  | some t => .ok t
  | none => .error "KeyError"

/-- The `Tokenizer` class: owns exactly one `Vocabulary`. -/
structure Tokenizer where
  vocabulary : Vocabulary
deriving Repr, DecidableEq

/-- `Tokenizer.__init__`. -/
def Tokenizer.build (tokens : List String) (special_tokens : List String) : Tokenizer :=
  ⟨Vocabulary.build tokens special_tokens⟩

/-- `Tokenizer.get_vocabulary_size`. -/
def Tokenizer.get_vocabulary_size (tk : Tokenizer) : Nat :=
  tk.vocabulary.size

/-- `Tokenizer.convert_tokens_to_indices`. -/
def Tokenizer.convert_tokens_to_indices (tk : Tokenizer) (tokens : List String) :
    Except String (List Nat) :=
  exceptMap tk.vocabulary.call tokens

/-- `Tokenizer.convert_indices_to_tokens`. -/
def Tokenizer.convert_indices_to_tokens (tk : Tokenizer) (indices : List Nat) :
    Except String (List String) :=
  exceptMap tk.vocabulary.reverse indices

/-- The 2-D padding stage: right-pad each row with `"<pad>"` up to
`batch_max_length`. -/
def padRows (batch : List (List String)) (batch_max_length : Nat) : List (List String) :=
  batch.map fun tokens => tokens ++ List.replicate (batch_max_length - tokens.length) "<pad>"

/-- `Tokenizer.batch_encode_2d` (defaults: `padding=True`, `truncation=True`,
`max_length=512`). -/
def Tokenizer.batch_encode_2d (tk : Tokenizer) (batch : List (List String))
    (padding : Bool := true) (truncation : Bool := true) (max_length : Nat := 512) :
    Except String (List (List Nat)) := do
  let batch := if truncation then batch.map (fun tokens => tokens.take max_length) else batch
  let batch ←
    if padding then do
      let batch_max_length ← pyMax (batch.map List.length)
      pure (padRows batch batch_max_length)
    else pure batch
  exceptMap (exceptMap tk.vocabulary.call) batch

/-- `Tokenizer.batch_decode_2d` (default `padding=False`). -/
def Tokenizer.batch_decode_2d (tk : Tokenizer) (batch : List (List Nat))
    (padding : Bool := false) : Except String (List (List String)) := do
  let batch ← exceptMap (exceptMap tk.vocabulary.reverse) batch
  if !padding then
    pure (batch.map fun tokens => tokens.filter (fun token => token ≠ "<pad>"))
  else pure batch

/-- The dim-0 padding stage of `batch_encode_3d`: append `["<pad>"]`
placeholder visits to shorter patients up to `batch_max_length`. -/
def padVisits (batch : List (List (List String))) (batch_max_length : Nat) :
    List (List (List String)) :=
  batch.map fun tokens => tokens ++ List.replicate (batch_max_length - tokens.length) ["<pad>"]

/-- The dim-1 maximum of `batch_encode_3d`:
`max([max([len(tokens) for tokens in visits]) for visits in batch])`;
the comprehension evaluates the inner `max`es left to right. -/
def pyMaxNested (batch : List (List (List String))) : Except String Nat := do
  let inner ← exceptMap (fun visits => pyMax (visits.map List.length)) batch
  pyMax inner

/-- The dim-1 padding stage of `batch_encode_3d`: right-pad every visit's
codes with `"<pad>"` up to `batch_max_length`. -/
def padCodes (batch : List (List (List String))) (batch_max_length : Nat) :
    List (List (List String)) :=
  batch.map fun visits =>
    visits.map fun tokens => tokens ++ List.replicate (batch_max_length - tokens.length) "<pad>"

/-- `Tokenizer.batch_encode_3d` (defaults: `padding=(True,True)`,
`truncation=(True,True)`, `max_length=(10,512)`). -/
def Tokenizer.batch_encode_3d (tk : Tokenizer) (batch : List (List (List String)))
    (padding : Bool × Bool := (true, true)) (truncation : Bool × Bool := (true, true))
    (max_length : Nat × Nat := (10, 512)) : Except String (List (List (List Nat))) := do
  let batch := if truncation.1 then batch.map (fun tokens => tokens.take max_length.1) else batch
  let batch :=
    if truncation.2 then
      batch.map (fun visits => visits.map (fun tokens => tokens.take max_length.2))
    else batch
  let batch ←
    if padding.1 then do
      let batch_max_length ← pyMax (batch.map List.length)
      pure (padVisits batch batch_max_length)
    else pure batch
  let batch ←
    if padding.2 then do
      let batch_max_length ← pyMaxNested batch
      pure (padCodes batch batch_max_length)
    else pure batch
  exceptMap (exceptMap (exceptMap tk.vocabulary.call)) batch

/-- `Tokenizer.batch_decode_3d` (default `padding=False`). -/
def Tokenizer.batch_decode_3d (tk : Tokenizer) (batch : List (List (List Nat)))
    (padding : Bool := false) : Except String (List (List (List String))) := do
  let batch ← exceptMap (fun visits => tk.batch_decode_2d visits padding) batch
  if !padding then
    pure (batch.map fun visits => visits.filter (fun visit => visit ≠ []))
  else pure batch

/-! ## Association-list (Python dict) lemmas -/

@[simp] theorem dictGet_nil {α β : Type} [DecidableEq α] (k : α) :
    dictGet k ([] : List (α × β)) = none := rfl

theorem dictGet_cons {α β : Type} [DecidableEq α] (k : α) (p : α × β) (ps : List (α × β)) :
    dictGet k (p :: ps) = if p.1 = k then some p.2 else dictGet k ps := rfl

theorem dictGet_append {α β : Type} [DecidableEq α] (k : α) (l₁ l₂ : List (α × β)) :
    dictGet k (l₁ ++ l₂) = ((dictGet k l₁).orElse fun _ => dictGet k l₂) := by
  induction l₁ with
  | nil => simp
  | cons p ps ih =>
    by_cases h : p.1 = k <;> simp [dictGet_cons, h, ih]

theorem dictGet_eq_none_iff {α β : Type} [DecidableEq α] {k : α} {l : List (α × β)} :
    dictGet k l = none ↔ k ∉ l.map Prod.fst := by
  induction l with
  | nil => simp
  | cons p ps ih =>
    rw [dictGet_cons]
    by_cases h : p.1 = k
    · simp [h]
    · simp only [if_neg h, ih, List.map_cons, List.mem_cons]
      constructor
      · intro hn hc
        rcases hc with hc | hc
        · exact h hc.symm
        · exact hn hc
      · intro hn hc
        exact hn (Or.inr hc)

theorem dictGet_mem {α β : Type} [DecidableEq α] {k : α} {v : β} {l : List (α × β)}
    (h : dictGet k l = some v) : (k, v) ∈ l := by
  induction l with
  | nil => simp at h
  | cons p ps ih =>
    rw [dictGet_cons] at h
    split at h
    · rename_i heq
      obtain ⟨rfl⟩ := Option.some_inj.mp h
      rcases p with ⟨a, b⟩
      simp_all
    · exact List.mem_cons_of_mem _ (ih h)

theorem dictGet_of_mem_of_nodup {α β : Type} [DecidableEq α] {k : α} {v : β}
    {l : List (α × β)} (hnd : (l.map Prod.fst).Nodup) (hmem : (k, v) ∈ l) :
    dictGet k l = some v := by
  induction l with
  | nil => simp at hmem
  | cons p ps ih =>
    rw [List.map_cons, List.nodup_cons] at hnd
    rcases List.mem_cons.mp hmem with h | h
    · rw [← h, dictGet_cons]
      simp
    · have hk : p.1 ≠ k := by
        intro hc
        exact hnd.1 (hc ▸ (List.mem_map.mpr ⟨(k, v), h, rfl⟩))
      rw [dictGet_cons, if_neg hk]
      exact ih hnd.2 h

theorem dictGet_isSome_iff {α β : Type} [DecidableEq α] {k : α} {l : List (α × β)} :
    (dictGet k l).isSome ↔ k ∈ l.map Prod.fst := by
  cases hd : dictGet k l with
  | none =>
    simp only [Option.isSome_none, Bool.false_eq_true, false_iff]
    exact dictGet_eq_none_iff.mp hd
  | some v =>
    simp only [Option.isSome_some, true_iff]
    exact List.mem_map.mpr ⟨(k, v), dictGet_mem hd, rfl⟩

/-! ## The Vocabulary invariant -/

/-- The structural invariant every constructed `Vocabulary` satisfies:
`idx2token` is the entrywise swap of `token2idx`, the assigned indices are
exactly `0, 1, ..., idx-1` in insertion order, and tokens are distinct. -/
def Vocabulary.Inv (v : Vocabulary) : Prop :=
  v.idx2token = v.token2idx.map (fun p => (p.2, p.1)) ∧
  v.token2idx.map Prod.snd = List.range v.idx ∧
  (v.token2idx.map Prod.fst).Nodup

theorem Vocabulary.Inv_empty : Vocabulary.Inv ⟨[], [], 0⟩ := by
  refine ⟨rfl, ?_, ?_⟩ <;> simp

theorem Vocabulary.Inv_add_token {v : Vocabulary} (h : v.Inv) (t : String) :
    (v.add_token t).Inv := by
  obtain ⟨h1, h2, h3⟩ := h
  unfold Vocabulary.add_token
  split
  · exact ⟨h1, h2, h3⟩
  · rename_i habs
    refine ⟨?_, ?_, ?_⟩
    · simp [h1]
    · simp [h2, List.range_succ]
    · simp only [List.map_append, List.map_cons, List.map_nil]
      rw [List.nodup_append]
      refine ⟨h3, List.nodup_singleton t, ?_⟩
      intro a ha hb
      rw [List.mem_singleton] at hb
      subst hb
      rw [Option.not_isSome_iff_eq_none, dictGet_eq_none_iff] at habs
      exact habs ha

theorem Vocabulary.Inv_foldl {v : Vocabulary} (h : v.Inv) (l : List String) :
    (l.foldl Vocabulary.add_token v).Inv := by
  induction l generalizing v with
  | nil => exact h
  | cons t ts ih => exact ih (Vocabulary.Inv_add_token h t)

theorem Vocabulary.Inv_build (tokens special_tokens : List String) :
    (Vocabulary.build tokens special_tokens).Inv :=
  Vocabulary.Inv_foldl Vocabulary.Inv_empty _

theorem Vocabulary.Inv.size_eq_idx {v : Vocabulary} (h : v.Inv) :
    v.size = v.idx := by
  have := congrArg List.length h.2.1
  simpa [Vocabulary.size] using this

/-- Under the invariant, `idx2token` keys are `0, ..., idx-1` (distinct). -/
theorem Vocabulary.Inv.i2t_keys {v : Vocabulary} (h : v.Inv) :
    v.idx2token.map Prod.fst = List.range v.idx := by
  rw [h.1, List.map_map]
  exact h.2.1

theorem Vocabulary.Inv.t2i_i2t {v : Vocabulary} (h : v.Inv) {t : String} {i : Nat}
    (ht : dictGet t v.token2idx = some i) : dictGet i v.idx2token = some t := by
  have hmem : (t, i) ∈ v.token2idx := dictGet_mem ht
  have hmem' : (i, t) ∈ v.idx2token := by
    rw [h.1]
    exact List.mem_map.mpr ⟨(t, i), hmem, rfl⟩
  have hnd : (v.idx2token.map Prod.fst).Nodup := by
    rw [h.i2t_keys]; exact List.nodup_range _
  exact dictGet_of_mem_of_nodup hnd hmem'

theorem Vocabulary.Inv.i2t_t2i {v : Vocabulary} (h : v.Inv) {t : String} {i : Nat}
    (hi : dictGet i v.idx2token = some t) : dictGet t v.token2idx = some i := by
  have hmem : (i, t) ∈ v.idx2token := dictGet_mem hi
  rw [h.1] at hmem
  obtain ⟨⟨t', i'⟩, hmem', heq⟩ := List.mem_map.mp hmem
  obtain ⟨rfl, rfl⟩ := Prod.mk.injEq .. ▸ heq
  exact dictGet_of_mem_of_nodup h.2.2 hmem'

theorem Vocabulary.Inv.i2t_total {v : Vocabulary} (h : v.Inv) {i : Nat}
    (hi : i < v.size) : ∃ t, dictGet i v.idx2token = some t := by
  have hi' : i ∈ List.range v.idx := by
    rw [List.mem_range, ← h.size_eq_idx]
    exact hi
  rw [← h.2.1] at hi'
  obtain ⟨⟨t, i'⟩, hmem, heq⟩ := List.mem_map.mp hi'
  have hnd : (v.idx2token.map Prod.fst).Nodup := by
    rw [h.i2t_keys]; exact List.nodup_range _
  refine ⟨t, dictGet_of_mem_of_nodup hnd ?_⟩
  rw [h.1]
  exact List.mem_map.mpr ⟨(t, i'), hmem, by rw [← heq]⟩

/-- A registered token is a direct hit for `Vocabulary.__call__`. -/
theorem Vocabulary.call_registered {v : Vocabulary} {t : String} {i : Nat}
    (h : dictGet t v.token2idx = some i) : v.call t = .ok i := by
  simp [Vocabulary.call, h]

/-! ## `exceptMap` and `pyMax` lemmas -/

@[simp] theorem exceptMap_nil {α β : Type} (f : α → Except String β) :
    exceptMap f [] = .ok [] := rfl

theorem exceptMap_cons {α β : Type} (f : α → Except String β) (x : α) (xs : List α) :
    exceptMap f (x :: xs) =
      (f x).bind fun y => (exceptMap f xs).bind fun ys => .ok (y :: ys) := rfl

/-- `exceptMap` succeeds with `o` exactly when `f` succeeds pointwise along
`l` producing `o`. -/
theorem exceptMap_ok_iff {α β : Type} {f : α → Except String β} {l : List α}
    {o : List β} :
    exceptMap f l = .ok o ↔ List.Forall₂ (fun x y => f x = .ok y) l o := by
  induction l generalizing o with
  | nil =>
    constructor
    · intro h
      obtain rfl : ([] : List β) = o := by simpa [exceptMap] using h
      exact List.Forall₂.nil
    · intro h
      cases h
      rfl
  | cons x xs ih =>
    rw [exceptMap_cons]
    constructor
    · intro h
      cases hfx : f x with
      | error e => rw [hfx] at h; simp [Except.bind] at h
      | ok y =>
        rw [hfx] at h
        cases hxs : exceptMap f xs with
        | error e => rw [hxs] at h; simp [Except.bind] at h
        | ok ys =>
          rw [hxs] at h
          simp only [Except.bind, Except.ok.injEq] at h
          subst h
          exact List.Forall₂.cons hfx (ih.mp hxs)
    · intro h
      cases h with
      | cons hfx htail =>
        rw [hfx, ih.mpr htail]
        rfl

theorem exceptMap_ok_of_forall {α β : Type} {f : α → Except String β} {g : α → β}
    {l : List α} (h : ∀ x ∈ l, f x = .ok (g x)) : exceptMap f l = .ok (l.map g) := by
  rw [exceptMap_ok_iff]
  induction l with
  | nil => exact List.Forall₂.nil
  | cons x xs ih =>
    exact List.Forall₂.cons (h x (List.mem_cons_self x xs))
      (ih fun y hy => h y (List.mem_cons_of_mem x hy))

theorem exceptMap_ok_length {α β : Type} {f : α → Except String β} {l : List α}
    {o : List β} (h : exceptMap f l = .ok o) : o.length = l.length :=
  (List.Forall₂.length_eq (exceptMap_ok_iff.mp h)).symm

/-- If the whole comprehension succeeds, the body succeeded on every element. -/
theorem exceptMap_ok_forall {α β : Type} {f : α → Except String β} {l : List α}
    {o : List β} (h : exceptMap f l = .ok o) : ∀ x ∈ l, ∃ y, f x = .ok y := by
  induction l generalizing o with
  | nil =>
    intro x hx
    simp at hx
  | cons a as ih =>
    rw [exceptMap_cons] at h
    cases hfa : f a with
    | error e => rw [hfa] at h; simp [Except.bind] at h
    | ok y =>
      rw [hfa] at h
      cases has : exceptMap f as with
      | error e => rw [has] at h; simp [Except.bind] at h
      | ok ys =>
        intro x hx
        rcases List.mem_cons.mp hx with rfl | hx
        · exact ⟨y, hfa⟩
        · exact ih has x hx

theorem exceptMap_error_of_mem {α β : Type} {f : α → Except String β} {l : List α}
    {x : α} {e : String} (hx : x ∈ l) (hfx : f x = .error e) :
    ∃ e', exceptMap f l = .error e' := by
  cases ho : exceptMap f l with
  | error e' => exact ⟨e', rfl⟩
  | ok o =>
    obtain ⟨y, hy⟩ := exceptMap_ok_forall ho x hx
    rw [hfx] at hy
    exact absurd hy (by simp)

theorem exceptMap_append {α β : Type} {f : α → Except String β} {l₁ l₂ : List α}
    {o₁ o₂ : List β} (h₁ : exceptMap f l₁ = .ok o₁) (h₂ : exceptMap f l₂ = .ok o₂) :
    exceptMap f (l₁ ++ l₂) = .ok (o₁ ++ o₂) := by
  rw [exceptMap_ok_iff] at h₁ h₂ ⊢
  exact List.rel_append h₁ h₂

theorem exceptMap_map {α β γ : Type} (f : β → Except String γ) (g : α → β)
    (l : List α) : exceptMap f (l.map g) = exceptMap (fun x => f (g x)) l := by
  induction l with
  | nil => rfl
  | cons x xs ih => rw [List.map_cons, exceptMap_cons, exceptMap_cons, ih]

theorem pyMax_nil : pyMax [] = .error "max() arg is an empty sequence" := rfl

theorem pyMax_ok_of_ne_nil {l : List Nat} (h : l ≠ []) : ∃ m, pyMax l = .ok m := by
  cases l with
  | nil => exact absurd rfl h
  | cons x xs => exact ⟨xs.foldl Nat.max x, rfl⟩

theorem le_foldl_max (a : Nat) (l : List Nat) : a ≤ l.foldl Nat.max a := by
  induction l generalizing a with
  | nil => exact Nat.le_refl a
  | cons x xs ih => exact Nat.le_trans (Nat.le_max_left a x) (ih (Nat.max a x))

theorem mem_le_foldl_max {x : Nat} {l : List Nat} (hx : x ∈ l) (a : Nat) :
    x ≤ l.foldl Nat.max a := by
  induction l generalizing a with
  | nil => simp at hx
  | cons y ys ih =>
    rcases List.mem_cons.mp hx with rfl | hx
    · exact Nat.le_trans (Nat.le_max_right a x) (le_foldl_max _ ys)
    · exact ih hx (Nat.max a y)

/-- Every element of the list is bounded by its Python `max`. -/
theorem pyMax_le {l : List Nat} {m : Nat} (h : pyMax l = .ok m) :
    ∀ x ∈ l, x ≤ m := by
  cases l with
  | nil => simp [pyMax] at h
  | cons a as =>
    obtain rfl : as.foldl Nat.max a = m := by simpa [pyMax] using h
    intro x hx
    rcases List.mem_cons.mp hx with rfl | hx
    · exact le_foldl_max x as
    · exact mem_le_foldl_max hx a

theorem foldl_max_mem (a : Nat) (l : List Nat) :
    l.foldl Nat.max a = a ∨ l.foldl Nat.max a ∈ l := by
  induction l generalizing a with
  | nil => exact Or.inl rfl
  | cons b bs ih =>
    rw [List.foldl_cons]
    rcases ih (Nat.max a b) with h | h
    · rcases Nat.le_total a b with h2 | h2
      · have hb : Nat.max a b = b := by simp [Nat.max_def, h2]
        rw [h, hb]
        exact Or.inr (List.mem_cons_self b bs)
      · have ha : Nat.max a b = a := by
          simp only [Nat.max_def]
          split
          · omega
          · rfl
        rw [h, ha]
        exact Or.inl rfl
    · exact Or.inr (List.mem_cons_of_mem b h)

/-- The Python `max` of a list is attained by one of its elements. -/
theorem pyMax_mem {l : List Nat} {m : Nat} (h : pyMax l = .ok m) : m ∈ l := by
  cases l with
  | nil => simp [pyMax] at h
  | cons a as =>
    obtain rfl : as.foldl Nat.max a = m := by simpa [pyMax] using h
    rcases foldl_max_mem a as with h2 | h2
    · rw [h2]
      exact List.mem_cons_self a as
    · exact List.mem_cons_of_mem a h2

/-! ## Claim C1 -/

/-- C1: for every Vocabulary built by construction, token→index and
index→token are exact inverses and the assigned indices are exactly
`0, 1, ..., Size()-1` in insertion order with no gaps or reuse; for every
index `i < Size()`, `Lookup (ReverseLookup i) = i`, and for every registered
token `t`, `ReverseLookup (Lookup t) = t`. -/
theorem C1_vocabulary_bijection (tokens special_tokens : List String) :
    ((Vocabulary.build tokens special_tokens).token2idx.map Prod.snd
        = List.range (Vocabulary.build tokens special_tokens).size)
    ∧ (∀ t i, dictGet t (Vocabulary.build tokens special_tokens).token2idx = some i →
        (Vocabulary.build tokens special_tokens).reverse i = .ok t
        ∧ (Vocabulary.build tokens special_tokens).call t = .ok i)
    ∧ (∀ i, i < (Vocabulary.build tokens special_tokens).size →
        ∃ t, (Vocabulary.build tokens special_tokens).reverse i = .ok t
          ∧ (Vocabulary.build tokens special_tokens).call t = .ok i) := by
  have h := Vocabulary.Inv_build tokens special_tokens
  refine ⟨?_, ?_, ?_⟩
  · rw [h.size_eq_idx]
    exact h.2.1
  · intro t i ht
    have hr := h.t2i_i2t ht
    exact ⟨by simp [Vocabulary.reverse, hr], Vocabulary.call_registered ht⟩
  · intro i hi
    obtain ⟨t, ht⟩ := h.i2t_total hi
    have ht' := h.i2t_t2i ht
    exact ⟨t, by simp [Vocabulary.reverse, ht], Vocabulary.call_registered ht'⟩

/-- C1 witness: the bijection instantiated on a concrete vocabulary,
`{<pad>: 0, <unk>: 1, a: 2, b: 3}`. -/
theorem C1_vocabulary_bijection_witness :
    ((Vocabulary.build ["a", "b"] ["<pad>", "<unk>"]).reverse 2 = .ok "a"
      ∧ (Vocabulary.build ["a", "b"] ["<pad>", "<unk>"]).call "a" = .ok 2)
    ∧ ∃ t, (Vocabulary.build ["a", "b"] ["<pad>", "<unk>"]).reverse 3 = .ok t
        ∧ (Vocabulary.build ["a", "b"] ["<pad>", "<unk>"]).call t = .ok 3 :=
  ⟨(C1_vocabulary_bijection ["a", "b"] ["<pad>", "<unk>"]).2.1 "a" 2 (by decide),
   (C1_vocabulary_bijection ["a", "b"] ["<pad>", "<unk>"]).2.2 3 (by decide)⟩

/-! ## Claim C3 -/

/-- The token-level part of `batch_encode_2d` (truncation, then padding),
before any index lookup happens. -/
def prepare2d (batch : List (List String)) (padding truncation : Bool)
    (max_length : Nat) : Except String (List (List String)) := do
  let batch := if truncation then batch.map (fun tokens => tokens.take max_length) else batch
  if padding then do
    let batch_max_length ← pyMax (batch.map List.length)
    pure (padRows batch batch_max_length)
  else pure batch

/-- The token-level part of `batch_encode_3d` (two truncations, two
paddings), before any index lookup happens. -/
def prepare3d (batch : List (List (List String))) (padding truncation : Bool × Bool)
    (max_length : Nat × Nat) : Except String (List (List (List String))) := do
  let batch := if truncation.1 then batch.map (fun tokens => tokens.take max_length.1) else batch
  let batch :=
    if truncation.2 then
      batch.map (fun visits => visits.map (fun tokens => tokens.take max_length.2))
    else batch
  let batch ←
    if padding.1 then do
      let batch_max_length ← pyMax (batch.map List.length)
      pure (padVisits batch batch_max_length)
    else pure batch
  if padding.2 then do
    let batch_max_length ← pyMaxNested batch
    pure (padCodes batch batch_max_length)
  else pure batch

theorem exceptBind_assoc {α β γ : Type} (x : Except String α) (f : α → Except String β)
    (g : β → Except String γ) : x >>= f >>= g = x >>= fun a => f a >>= g := by
  cases x <;> rfl

theorem exceptPure_bind {α β : Type} (a : α) (f : α → Except String β) :
    (pure a : Except String α) >>= f = f a := rfl

theorem batch_encode_2d_eq_prepare (tk : Tokenizer) (batch : List (List String))
    (padding truncation : Bool) (max_length : Nat) :
    tk.batch_encode_2d batch padding truncation max_length =
      prepare2d batch padding truncation max_length >>=
        exceptMap (exceptMap tk.vocabulary.call) := by
  unfold Tokenizer.batch_encode_2d prepare2d
  cases truncation <;> cases padding <;>
    simp [exceptBind_assoc, exceptPure_bind]

theorem batch_encode_3d_eq_prepare (tk : Tokenizer) (batch : List (List (List String)))
    (padding truncation : Bool × Bool) (max_length : Nat × Nat) :
    tk.batch_encode_3d batch padding truncation max_length =
      prepare3d batch padding truncation max_length >>=
        exceptMap (exceptMap (exceptMap tk.vocabulary.call)) := by
  unfold Tokenizer.batch_encode_3d prepare3d
  obtain ⟨p0, p1⟩ := padding
  obtain ⟨t0, t1⟩ := truncation
  cases p0 <;> cases p1 <;>
    simp [exceptBind_assoc, exceptPure_bind]

/-- C3: `Lookup` on a registered token returns its index; on an unregistered
token it returns the index of the registered `"<unk>"` marker, or fails with
an unknown-token error when no `"<unk>"` is registered; and both batch encode
operations resolve every token of the prepared (truncated and padded) batch,
inserted pad tokens included, through this same two-branch `Lookup`. -/
theorem C3_lookup_fallback_everywhere :
    (∀ (v : Vocabulary) (t : String) (i : Nat),
        dictGet t v.token2idx = some i → v.call t = .ok i)
    ∧ (∀ (v : Vocabulary) (t : String) (u : Nat),
        dictGet t v.token2idx = none → dictGet "<unk>" v.token2idx = some u →
          v.call t = .ok u)
    ∧ (∀ (v : Vocabulary) (t : String),
        dictGet t v.token2idx = none → dictGet "<unk>" v.token2idx = none →
          v.call t = .error ("Unknown token: " ++ t))
    ∧ (∀ (tk : Tokenizer) (batch : List (List String)) (padding truncation : Bool)
        (max_length : Nat),
        tk.batch_encode_2d batch padding truncation max_length =
          prepare2d batch padding truncation max_length >>=
            exceptMap (exceptMap tk.vocabulary.call))
    ∧ (∀ (tk : Tokenizer) (batch : List (List (List String)))
        (padding truncation : Bool × Bool) (max_length : Nat × Nat),
        tk.batch_encode_3d batch padding truncation max_length =
          prepare3d batch padding truncation max_length >>=
            exceptMap (exceptMap (exceptMap tk.vocabulary.call))) := by
  refine ⟨?_, ?_, ?_, batch_encode_2d_eq_prepare, batch_encode_3d_eq_prepare⟩
  · intro v t i h
    exact Vocabulary.call_registered h
  · intro v t u h hu
    simp [Vocabulary.call, h, hu]
  · intro v t h hu
    simp [Vocabulary.call, h, hu]

/-- C3 witness: the three `Lookup` branches on concrete vocabularies
(`{<unk>: 0, a: 1}` and `{a: 0}`). -/
theorem C3_lookup_fallback_everywhere_witness :
    (Vocabulary.build ["a"] ["<unk>"]).call "a" = .ok 1
    ∧ (Vocabulary.build ["a"] ["<unk>"]).call "z" = .ok 0
    ∧ (Vocabulary.build ["a"] []).call "z" = .error ("Unknown token: " ++ "z") :=
  ⟨C3_lookup_fallback_everywhere.1 (Vocabulary.build ["a"] ["<unk>"]) "a" 1 (by decide),
   C3_lookup_fallback_everywhere.2.1 (Vocabulary.build ["a"] ["<unk>"]) "z" 0
     (by decide) (by decide),
   C3_lookup_fallback_everywhere.2.2.1 (Vocabulary.build ["a"] []) "z"
     (by decide) (by decide)⟩

/-! ## Claim C8 -/

/-- If two lists are pointwise related and the stronger relation holds for
members, the stronger pointwise relation holds. -/
theorem forall₂_imp_mem {α β : Type} {R S : α → β → Prop} {l₁ : List α} {l₂ : List β}
    (h : List.Forall₂ R l₁ l₂) (himp : ∀ a ∈ l₁, ∀ b, R a b → S a b) :
    List.Forall₂ S l₁ l₂ := by
  induction h with
  | nil => exact List.Forall₂.nil
  | cons hab htail ih =>
    rename_i a b as bs
    exact List.Forall₂.cons (himp a (List.mem_cons_self a as) b hab)
      (ih fun x hx => himp x (List.mem_cons_of_mem a hx))

/-- C8: on a batch of valid indices, `batch_decode_2d` with `padding=false`
removes every occurrence of the literal `"<pad>"` token from each decoded
inner sequence, wherever it appears, while `padding=true` returns the
element-wise reverse lookup with the input's exact shape and no filtering. -/
theorem C8_batch_decode_2d (tk : Tokenizer) (batch : List (List Nat))
    (dec : List (List String))
    (hdec : exceptMap (exceptMap tk.vocabulary.reverse) batch = .ok dec) :
    tk.batch_decode_2d batch false =
        .ok (dec.map fun tokens => tokens.filter (fun token => token ≠ "<pad>"))
    ∧ (∀ row ∈ dec, "<pad>" ∉ row.filter (fun token => token ≠ "<pad>"))
    ∧ tk.batch_decode_2d batch true = .ok dec
    ∧ dec.length = batch.length
    ∧ List.Forall₂ (fun (r : List Nat) (d : List String) =>
        d.length = r.length
        ∧ List.Forall₂ (fun i t => tk.vocabulary.reverse i = .ok t) r d) batch dec := by
  refine ⟨?_, ?_, ?_, ?_, ?_⟩
  · simp [Tokenizer.batch_decode_2d, hdec]
  · intro row hrow hmem
    have h := List.of_mem_filter hmem
    simp at h
  · simp [Tokenizer.batch_decode_2d, hdec]
  · exact exceptMap_ok_length hdec
  · refine (exceptMap_ok_iff.mp hdec).imp ?_
    intro r d hr
    exact ⟨exceptMap_ok_length hr, exceptMap_ok_iff.mp hr⟩

/-- C8 witness: decoding `[[0, 2, 0]]` over the vocabulary
`{<pad>: 0, <unk>: 1, a: 2}` removes both pad occurrences (leading and
trailing) without padding, and mirrors the shape with padding. -/
theorem C8_batch_decode_2d_witness :
    (Tokenizer.build ["a"] ["<pad>", "<unk>"]).batch_decode_2d [[0, 2, 0]] false
        = .ok [["a"]]
    ∧ (Tokenizer.build ["a"] ["<pad>", "<unk>"]).batch_decode_2d [[0, 2, 0]] true
        = .ok [["<pad>", "a", "<pad>"]] := by
  have h := C8_batch_decode_2d (Tokenizer.build ["a"] ["<pad>", "<unk>"]) [[0, 2, 0]]
    [["<pad>", "a", "<pad>"]] (by decide)
  exact ⟨h.1.trans (by decide), h.2.2.1⟩

/-! ## Claim C7 -/

theorem exceptOk_bind {α β : Type} (a : α) (f : α → Except String β) :
    (Except.ok a : Except String α) >>= f = f a := rfl

theorem exceptError_bind {α β : Type} (e : String) (f : α → Except String β) :
    (Except.error e : Except String α) >>= f = .error e := rfl

theorem prepare2d_false_true (batch : List (List String)) (max_length : Nat) :
    prepare2d batch false true max_length =
      .ok (batch.map fun tokens => tokens.take max_length) := rfl

theorem prepare2d_true_true (batch : List (List String)) (max_length : Nat) :
    prepare2d batch true true max_length =
      pyMax ((batch.map fun tokens => tokens.take max_length).map List.length) >>=
        fun m => pure (padRows (batch.map fun tokens => tokens.take max_length) m) := rfl

/-- C7: `batch_encode_2d` with truncation keeps only the first `max_length`
tokens of each inner sequence; with padding it right-pads each truncated
sequence with the pad token up to the batch maximum length measured after
truncation, so all rows come out equally long; without padding each output
row keeps its own truncated length. -/
theorem C7_batch_encode_2d_shape (tk : Tokenizer) (batch : List (List String))
    (max_length : Nat) :
    (∀ out, tk.batch_encode_2d batch false true max_length = .ok out →
        out.length = batch.length
        ∧ List.Forall₂ (fun (row : List String) (o : List Nat) =>
            o.length = min max_length row.length
            ∧ exceptMap tk.vocabulary.call (row.take max_length) = .ok o) batch out)
    ∧ (∀ out, tk.batch_encode_2d batch true true max_length = .ok out →
        ∃ m, pyMax ((batch.map fun tokens => tokens.take max_length).map List.length) = .ok m
          ∧ out.length = batch.length
          ∧ List.Forall₂ (fun (row : List String) (o : List Nat) =>
              o.length = m
              ∧ exceptMap tk.vocabulary.call
                  (row.take max_length ++
                    List.replicate (m - (row.take max_length).length) "<pad>") = .ok o)
              batch out) := by
  constructor
  · intro out hout
    rw [batch_encode_2d_eq_prepare, prepare2d_false_true, exceptOk_bind,
      exceptMap_map] at hout
    have h := exceptMap_ok_iff.mp hout
    refine ⟨(List.Forall₂.length_eq h).symm, h.imp ?_⟩
    intro row o ho
    refine ⟨?_, ho⟩
    rw [exceptMap_ok_length ho, List.length_take]
  · intro out hout
    rw [batch_encode_2d_eq_prepare, prepare2d_true_true, exceptBind_assoc] at hout
    cases hM : pyMax ((batch.map fun tokens => tokens.take max_length).map List.length) with
    | error e =>
      rw [hM, exceptError_bind] at hout
      exact absurd hout (by simp)
    | ok m =>
      rw [hM, exceptOk_bind, exceptPure_bind] at hout
      unfold padRows at hout
      rw [exceptMap_map, exceptMap_map] at hout
      have h := exceptMap_ok_iff.mp hout
      refine ⟨m, rfl, (List.Forall₂.length_eq h).symm, forall₂_imp_mem h ?_⟩
      intro row hrow o ho
      refine ⟨?_, ho⟩
      have hle : (row.take max_length).length ≤ m := by
        refine pyMax_le hM _ ?_
        exact List.mem_map.mpr ⟨row.take max_length,
          List.mem_map.mpr ⟨row, hrow, rfl⟩, rfl⟩
      have hlen := exceptMap_ok_length ho
      rw [List.length_append, List.length_replicate] at hlen
      omega

/-- C7 witness: with `max_length = 2` on the vocabulary
`{<pad>: 0, <unk>: 1, a: 2, b: 3}`, the batch `[[a,b,b],[b]]` encodes
ragged to `[[2,3],[3]]` without padding and rectangular to `[[2,3],[3,0]]`
with padding. -/
theorem C7_batch_encode_2d_shape_witness :
    (([[2, 3], [3]] : List (List Nat)).length = [["a", "b", "b"], ["b"]].length
      ∧ List.Forall₂ (fun (row : List String) (o : List Nat) =>
          o.length = min 2 row.length
          ∧ exceptMap (Tokenizer.build ["a", "b"] ["<pad>", "<unk>"]).vocabulary.call
              (row.take 2) = .ok o) [["a", "b", "b"], ["b"]] [[2, 3], [3]])
    ∧ ∃ m, pyMax (([["a", "b", "b"], ["b"]].map
            fun tokens => tokens.take 2).map List.length) = .ok m
        ∧ ([[2, 3], [3, 0]] : List (List Nat)).length = [["a", "b", "b"], ["b"]].length
        ∧ List.Forall₂ (fun (row : List String) (o : List Nat) =>
            o.length = m
            ∧ exceptMap (Tokenizer.build ["a", "b"] ["<pad>", "<unk>"]).vocabulary.call
                (row.take 2 ++
                  List.replicate (m - (row.take 2).length) "<pad>") = .ok o)
            [["a", "b", "b"], ["b"]] [[2, 3], [3, 0]] :=
  ⟨(C7_batch_encode_2d_shape (Tokenizer.build ["a", "b"] ["<pad>", "<unk>"])
      [["a", "b", "b"], ["b"]] 2).1 [[2, 3], [3]] (by decide),
   (C7_batch_encode_2d_shape (Tokenizer.build ["a", "b"] ["<pad>", "<unk>"])
      [["a", "b", "b"], ["b"]] 2).2 [[2, 3], [3, 0]] (by decide)⟩

/-! ## Claim C5 -/

theorem prepare2d_true_false (batch : List (List String)) (max_length : Nat) :
    prepare2d batch true false max_length =
      pyMax (batch.map List.length) >>= fun m => pure (padRows batch m) := rfl

/-- C5 counterexample: `"<pad>"` is not registered in `{<unk>: 0, a: 1}`,
padding is enabled and a pad token is inserted into the shorter row, yet the
encode call succeeds: the inserted pad resolves through the `"<unk>"`
fallback instead of failing. -/
theorem C5_counterexample :
    dictGet "<pad>" (Tokenizer.build ["a"] ["<unk>"]).vocabulary.token2idx = none
    ∧ (Tokenizer.build ["a"] ["<unk>"]).batch_encode_2d [["a", "a"], ["a"]] true false 512
        = .ok [[1, 1], [1, 0]] := by
  decide

/-- C5 amended: if neither `"<pad>"` nor `"<unk>"` is registered and some row
is strictly shorter than another (so padding actually inserts a pad token),
then `batch_encode_2d` with padding enabled fails. -/
theorem C5_amended_pad_lookup_fails (tk : Tokenizer) (batch : List (List String))
    (max_length : Nat)
    (hpad : dictGet "<pad>" tk.vocabulary.token2idx = none)
    (hunk : dictGet "<unk>" tk.vocabulary.token2idx = none)
    (hragged : ∃ r ∈ batch, ∃ r' ∈ batch, r.length < r'.length) :
    ∃ e, tk.batch_encode_2d batch true false max_length = .error e := by
  obtain ⟨r, hr, r', hr', hlt⟩ := hragged
  rw [batch_encode_2d_eq_prepare, prepare2d_true_false, exceptBind_assoc]
  obtain ⟨m, hm⟩ := pyMax_ok_of_ne_nil
    (l := batch.map List.length) (by simp; exact fun hc => by simp [hc] at hr)
  rw [hm, exceptOk_bind, exceptPure_bind]
  have hrm : r.length < m := Nat.lt_of_lt_of_le hlt
    (pyMax_le hm r'.length (List.mem_map.mpr ⟨r', hr', rfl⟩))
  have hmempad : "<pad>" ∈ r ++ List.replicate (m - r.length) "<pad>" := by
    refine List.mem_append_right r (List.mem_replicate.mpr ⟨?_, rfl⟩)
    omega
  have hcall : tk.vocabulary.call "<pad>" = .error ("Unknown token: " ++ "<pad>") := by
    simp [Vocabulary.call, hpad, hunk]
  obtain ⟨e₁, he₁⟩ := exceptMap_error_of_mem hmempad hcall
  exact exceptMap_error_of_mem
    (List.mem_map.mpr ⟨r, hr, rfl⟩ :
      r ++ List.replicate (m - r.length) "<pad>" ∈ padRows batch m) he₁

/-- C5 amended witness: over `{a: 0}` (no pad, no unk), padding the ragged
batch `[[a,a],[a]]` makes the call fail on the inserted pad token. -/
theorem C5_amended_pad_lookup_fails_witness :
    ∃ e, (Tokenizer.build ["a"] []).batch_encode_2d [["a", "a"], ["a"]] true false 512
      = .error e :=
  C5_amended_pad_lookup_fails (Tokenizer.build ["a"] []) [["a", "a"], ["a"]] 512
    (by decide) (by decide)
    ⟨["a"], by decide, ["a", "a"], by decide, by decide⟩

/-! ## Claim C9 -/

/-- The truncation stages of `batch_encode_3d`, as one function. -/
def trunc3 (batch : List (List (List String))) (truncation : Bool × Bool)
    (max_length : Nat × Nat) : List (List (List String)) :=
  let b := if truncation.1 then batch.map (fun tokens => tokens.take max_length.1) else batch
  if truncation.2 then b.map (fun visits => visits.map (fun tokens => tokens.take max_length.2))
  else b

theorem prepare3d_false_true (batch : List (List (List String)))
    (truncation : Bool × Bool) (max_length : Nat × Nat) :
    prepare3d batch (false, true) truncation max_length =
      pyMaxNested (trunc3 batch truncation max_length) >>=
        fun m => pure (padCodes (trunc3 batch truncation max_length) m) := rfl

theorem trunc3_nil_mem {batch : List (List (List String))}
    (h : ([] : List (List String)) ∈ batch) (truncation : Bool × Bool)
    (max_length : Nat × Nat) :
    ([] : List (List String)) ∈ trunc3 batch truncation max_length := by
  unfold trunc3
  obtain ⟨t0, t1⟩ := truncation
  have h1 : ([] : List (List String)) ∈
      (if (t0, t1).1 then batch.map (fun tokens => tokens.take max_length.1) else batch) := by
    cases t0 with
    | false => exact h
    | true => exact List.mem_map.mpr ⟨[], h, by simp⟩
  cases t1 with
  | false => exact h1
  | true => exact List.mem_map.mpr ⟨[], h1, rfl⟩

/-- A patient with zero visits makes the dim-1 maximum fail: the inner
`max([])` raises. -/
theorem pyMaxNested_error_of_nil_mem {batch : List (List (List String))}
    (h : ([] : List (List String)) ∈ batch) : ∃ e, pyMaxNested batch = .error e := by
  have hf : (fun (visits : List (List String)) => pyMax (visits.map List.length)) [] =
      Except.error "max() arg is an empty sequence" := rfl
  obtain ⟨e, he⟩ := exceptMap_error_of_mem
    (f := fun visits => pyMax (visits.map List.length)) h hf
  refine ⟨e, ?_⟩
  unfold pyMaxNested
  rw [he]
  rfl

/-- C9 counterexample: a batch containing a zero-visit patient, encoded with
`padding=(true,true)`, succeeds — dimension-0 padding fills the empty patient
with a placeholder before the dimension-1 maximum is computed, so the claimed
abort does not happen. -/
theorem C9_counterexample :
    ([] : List (List String)) ∈ [([] : List (List String)), [["a"]]]
    ∧ (Tokenizer.build ["a"] ["<pad>", "<unk>"]).batch_encode_3d [[], [["a"]]]
        (true, true) (false, false) (10, 512) = .ok [[[0]], [[2]]] := by
  decide

/-- C9 amended: computing a maximum over an empty collection is fatal:
2-D padding of an empty batch fails, 3-D dimension-0 padding of an empty
batch fails, and 3-D dimension-1 padding fails when a patient still has zero
visits at that stage — namely when dimension-0 padding is disabled (or, more
generally, whenever a zero-visit patient survives to the dimension-1 stage). -/
theorem C9_empty_max_fails :
    (∀ (tk : Tokenizer) (truncation : Bool) (max_length : Nat),
        tk.batch_encode_2d [] true truncation max_length =
          .error "max() arg is an empty sequence")
    ∧ (∀ (tk : Tokenizer) (p1 : Bool) (truncation : Bool × Bool) (max_length : Nat × Nat),
        tk.batch_encode_3d [] (true, p1) truncation max_length =
          .error "max() arg is an empty sequence")
    ∧ (∀ (tk : Tokenizer) (batch : List (List (List String)))
        (truncation : Bool × Bool) (max_length : Nat × Nat),
        ([] : List (List String)) ∈ batch →
          ∃ e, tk.batch_encode_3d batch (false, true) truncation max_length = .error e) := by
  refine ⟨?_, ?_, ?_⟩
  · intro tk truncation max_length
    rw [batch_encode_2d_eq_prepare]
    cases truncation <;> rfl
  · intro tk p1 truncation max_length
    rw [batch_encode_3d_eq_prepare]
    obtain ⟨t0, t1⟩ := truncation
    cases t0 <;> cases t1 <;> cases p1 <;> rfl
  · intro tk batch truncation max_length h
    rw [batch_encode_3d_eq_prepare, prepare3d_false_true, exceptBind_assoc]
    obtain ⟨e, he⟩ := pyMaxNested_error_of_nil_mem (trunc3_nil_mem h truncation max_length)
    rw [he]
    exact ⟨e, rfl⟩

/-- C9 amended witness: the three failure scenarios at concrete inputs. -/
theorem C9_empty_max_fails_witness :
    (Tokenizer.build ["a"] ["<pad>", "<unk>"]).batch_encode_2d [] true true 512 =
        .error "max() arg is an empty sequence"
    ∧ (Tokenizer.build ["a"] ["<pad>", "<unk>"]).batch_encode_3d [] (true, true)
        (true, true) (10, 512) = .error "max() arg is an empty sequence"
    ∧ ∃ e, (Tokenizer.build ["a"] ["<pad>", "<unk>"]).batch_encode_3d [[], [["a"]]]
        (false, true) (true, true) (10, 512) = .error e :=
  ⟨C9_empty_max_fails.1 (Tokenizer.build ["a"] ["<pad>", "<unk>"]) true 512,
   C9_empty_max_fails.2.1 (Tokenizer.build ["a"] ["<pad>", "<unk>"]) true (true, true) (10, 512),
   C9_empty_max_fails.2.2 (Tokenizer.build ["a"] ["<pad>", "<unk>"]) [[], [["a"]]]
     (true, true) (10, 512) (by decide)⟩

/-! ## Claim C10 -/

/-- C10: the reserved markers are the fixed literal strings `"<pad>"` and
`"<unk>"`, independent of the special tokens supplied at construction:
the unknown fallback succeeds exactly when the literal `"<unk>"` is
registered; a vocabulary using `"[PAD]"`/`"[UNK]"` markers gets `"<pad>"`
inserted on padding (which then fails to resolve) and no fallback for
unknown tokens; and decode with `padding=false` filters exactly the literal
`"<pad>"`, even when it was registered as an ordinary token, while leaving
`"[PAD]"` alone. -/
theorem C10_literal_markers :
    (∀ (v : Vocabulary) (t : String), dictGet t v.token2idx = none →
        ((∃ i, v.call t = .ok i) ↔ (dictGet "<unk>" v.token2idx).isSome))
    ∧ (Tokenizer.build ["a"] ["[PAD]", "[UNK]"]).batch_encode_2d
        [["a", "a"], ["a"]] true false 512 = .error ("Unknown token: " ++ "<pad>")
    ∧ (Tokenizer.build ["a"] ["[PAD]", "[UNK]"]).vocabulary.call "z"
        = .error ("Unknown token: " ++ "z")
    ∧ (Tokenizer.build ["<pad>", "a"] ["[PAD]"]).batch_decode_2d [[0, 1, 2]] false
        = .ok [["[PAD]", "a"]] := by
  refine ⟨?_, by decide, by decide, by decide⟩
  intro v t h
  unfold Vocabulary.call
  rw [h]
  cases hu : dictGet "<unk>" v.token2idx with
  | none => simp
  | some u => simp

/-- C10 witness: the fallback criterion applied to the `"[UNK]"`-marker
vocabulary: `"[UNK]"` being registered does not enable the fallback. -/
theorem C10_literal_markers_witness :
    (∃ i, (Vocabulary.build ["a"] ["[PAD]", "[UNK]"]).call "z" = .ok i) ↔
      (dictGet "<unk>" (Vocabulary.build ["a"] ["[PAD]", "[UNK]"]).token2idx).isSome :=
  C10_literal_markers.1 (Vocabulary.build ["a"] ["[PAD]", "[UNK]"]) "z" (by decide)

/-! ## Claim C2 -/

theorem forall₂_mem_left {α β : Type} {R : α → β → Prop} {l₁ : List α} {l₂ : List β}
    (h : List.Forall₂ R l₁ l₂) {x : α} (hx : x ∈ l₁) : ∃ y ∈ l₂, R x y := by
  induction h with
  | nil => simp at hx
  | cons hab htail ih =>
    rename_i a b as bs
    rcases List.mem_cons.mp hx with rfl | hx
    · exact ⟨b, List.mem_cons_self b bs, hab⟩
    · obtain ⟨y, hy, hr⟩ := ih hx
      exact ⟨y, List.mem_cons_of_mem b hy, hr⟩

theorem forall₂_mem_right {α β : Type} {R : α → β → Prop} {l₁ : List α} {l₂ : List β}
    (h : List.Forall₂ R l₁ l₂) {y : β} (hy : y ∈ l₂) : ∃ x ∈ l₁, R x y := by
  induction h with
  | nil => simp at hy
  | cons hab htail ih =>
    rename_i a b as bs
    rcases List.mem_cons.mp hy with rfl | hy
    · exact ⟨a, List.mem_cons_self a as, hab⟩
    · obtain ⟨x, hx, hr⟩ := ih hy
      exact ⟨x, List.mem_cons_of_mem a hx, hr⟩

theorem prepare3d_true_true (batch : List (List (List String)))
    (truncation : Bool × Bool) (max_length : Nat × Nat) :
    prepare3d batch (true, true) truncation max_length =
      pyMax ((trunc3 batch truncation max_length).map List.length) >>= fun m0 =>
        pyMaxNested (padVisits (trunc3 batch truncation max_length) m0) >>= fun m1 =>
          pure (padCodes (padVisits (trunc3 batch truncation max_length) m0) m1) := by
  unfold prepare3d trunc3
  simp [exceptBind_assoc, exceptPure_bind]

/-- C2: in `batch_encode_3d` with `padding=(true,true)`, dimension-0 padding
is applied before dimension-1's maximum code count is measured: the encode
equals the pipeline that pads visits to the dimension-0 maximum `m0` and only
then computes the dimension-1 maximum `m1` over the padded batch; that
maximum bounds (and is attained by) the code count of all visits, appended
placeholder visits included; and in the concrete two-patient batch with 2 and
3 (empty) visits, the placeholder visit `["<pad>"]` raises the dimension-1
maximum to 1 and the final padded width reflects it. -/
theorem C2_dim0_padding_before_dim1_max :
    (∀ (tk : Tokenizer) (batch : List (List (List String)))
        (truncation : Bool × Bool) (max_length : Nat × Nat),
        tk.batch_encode_3d batch (true, true) truncation max_length =
          pyMax ((trunc3 batch truncation max_length).map List.length) >>= fun m0 =>
            pyMaxNested (padVisits (trunc3 batch truncation max_length) m0) >>= fun m1 =>
              exceptMap (exceptMap (exceptMap tk.vocabulary.call))
                (padCodes (padVisits (trunc3 batch truncation max_length) m0) m1))
    ∧ (∀ (b : List (List (List String))) (m : Nat), pyMaxNested b = .ok m →
        (∀ visits ∈ b, ∀ row ∈ visits, row.length ≤ m)
        ∧ (∃ visits ∈ b, ∃ row ∈ visits, row.length = m))
    ∧ (Tokenizer.build ["a"] ["<pad>", "<unk>"]).batch_encode_3d [[[], []], [[], [], []]]
        (true, true) (false, false) (10, 512) = .ok [[[0], [0], [0]], [[0], [0], [0]]] := by
  refine ⟨?_, ?_, by decide⟩
  · intro tk batch truncation max_length
    rw [batch_encode_3d_eq_prepare, prepare3d_true_true]
    simp only [exceptBind_assoc, exceptPure_bind]
  · intro b m h
    unfold pyMaxNested at h
    cases hi : exceptMap (fun visits => pyMax (visits.map List.length)) b with
    | error e =>
      rw [hi, exceptError_bind] at h
      exact absurd h (by simp)
    | ok innerL =>
      rw [hi] at h
      replace h : pyMax innerL = .ok m := h
      constructor
      · intro visits hv row hr
        obtain ⟨mv, hmv_mem, hmv⟩ := forall₂_mem_left (exceptMap_ok_iff.mp hi) hv
        exact Nat.le_trans (pyMax_le hmv _ (List.mem_map.mpr ⟨row, hr, rfl⟩))
          (pyMax_le h mv hmv_mem)
      · obtain ⟨visits, hv, hpv⟩ := forall₂_mem_right (exceptMap_ok_iff.mp hi)
          (pyMax_mem h)
        obtain ⟨row, hr, hlen⟩ := List.mem_map.mp (pyMax_mem hpv)
        exact ⟨visits, hv, row, hr, hlen⟩

/-- C2 witness: the dimension-1 maximum of a concrete padded batch bounds and
is attained by its visits' code counts. -/
theorem C2_dim0_padding_before_dim1_max_witness :
    (∀ visits ∈ [[["a"], []]], ∀ row ∈ visits, List.length row ≤ 1)
    ∧ (∃ visits ∈ [[["a"], []]], ∃ row ∈ visits, List.length row = 1) :=
  C2_dim0_padding_before_dim1_max.2.1 [[["a"], []]] 1 (by decide)

/-! ## Claim C4 -/

/-- Encoding a row of registered tokens succeeds, producing their indices. -/
theorem encode_row_ok {v : Vocabulary} {row : List String}
    (h : ∀ t ∈ row, (dictGet t v.token2idx).isSome) :
    exceptMap v.call row =
      .ok (row.map fun t => (dictGet t v.token2idx).getD 0) := by
  refine exceptMap_ok_of_forall ?_
  intro t ht
  obtain ⟨i, hi⟩ := Option.isSome_iff_exists.mp (h t ht)
  rw [hi]
  exact Vocabulary.call_registered hi

/-- Reverse lookup undoes the encoding of a row of registered tokens. -/
theorem decode_row_ok {v : Vocabulary} (hv : v.Inv) {row : List String}
    (h : ∀ t ∈ row, (dictGet t v.token2idx).isSome) :
    exceptMap v.reverse (row.map fun t => (dictGet t v.token2idx).getD 0) = .ok row := by
  rw [exceptMap_map]
  have h2 : ∀ t ∈ row, v.reverse ((dictGet t v.token2idx).getD 0) = .ok (id t) := by
    intro t ht
    obtain ⟨i, hi⟩ := Option.isSome_iff_exists.mp (h t ht)
    rw [hi]
    have hr := hv.t2i_i2t hi
    simp [Vocabulary.reverse, hr]
  have h3 := exceptMap_ok_of_forall h2
  rw [List.map_id] at h3
  exact h3

/-- C4: for every 2D batch whose tokens are all registered and none equal the
pad token, decoding (with `padding=false`) the encoding (with
`padding=false`, `truncation=false`) gives the batch back. -/
theorem C4_roundtrip_2d (tokens special_tokens : List String)
    (batch : List (List String)) (max_length : Nat)
    (hreg : ∀ row ∈ batch, ∀ t ∈ row,
      (dictGet t (Vocabulary.build tokens special_tokens).token2idx).isSome)
    (hnp : ∀ row ∈ batch, ∀ t ∈ row, t ≠ "<pad>") :
    (Tokenizer.build tokens special_tokens).batch_encode_2d batch false false max_length >>=
      (fun enc => (Tokenizer.build tokens special_tokens).batch_decode_2d enc false)
      = .ok batch := by
  have hInv : (Vocabulary.build tokens special_tokens).Inv :=
    Vocabulary.Inv_build tokens special_tokens
  have henc : (Tokenizer.build tokens special_tokens).batch_encode_2d batch false
      false max_length = .ok (batch.map fun row => row.map fun t =>
        (dictGet t (Vocabulary.build tokens special_tokens).token2idx).getD 0) := by
    rw [batch_encode_2d_eq_prepare]
    have hp : prepare2d batch false false max_length = .ok batch := rfl
    rw [hp, exceptOk_bind]
    exact exceptMap_ok_of_forall (fun row hrow => encode_row_ok (hreg row hrow))
  rw [henc, exceptOk_bind]
  unfold Tokenizer.batch_decode_2d
  have hdec : exceptMap (exceptMap (Tokenizer.build tokens special_tokens).vocabulary.reverse)
      (batch.map fun row => row.map fun t =>
        (dictGet t (Vocabulary.build tokens special_tokens).token2idx).getD 0)
      = .ok batch := by
    rw [exceptMap_map]
    have h3 : exceptMap
        (fun row => exceptMap (Tokenizer.build tokens special_tokens).vocabulary.reverse
          (row.map fun t =>
            (dictGet t (Vocabulary.build tokens special_tokens).token2idx).getD 0))
        batch = .ok (batch.map id) := by
      refine exceptMap_ok_of_forall ?_
      intro row hrow
      exact decode_row_ok hInv (hreg row hrow)
    rw [List.map_id] at h3
    exact h3
  rw [hdec, exceptOk_bind]
  have hfilter : batch.map (fun tokens => tokens.filter fun token => token ≠ "<pad>")
      = batch := by
    have h4 := List.map_congr_left (l := batch)
      (f := fun tokens => tokens.filter fun token => token ≠ "<pad>") (g := id)
      (fun row hrow => List.filter_eq_self.mpr
        (fun t ht => decide_eq_true (hnp row hrow t ht)))
    rw [List.map_id] at h4
    exact h4
  simp only [Bool.not_false, if_pos]
  exact congrArg Except.ok hfilter

/-- C4 witness: the round trip on `[[a,b],[b]]` over
`{<pad>: 0, <unk>: 1, a: 2, b: 3}`. -/
theorem C4_roundtrip_2d_witness :
    (Tokenizer.build ["a", "b"] ["<pad>", "<unk>"]).batch_encode_2d
        [["a", "b"], ["b"]] false false 512 >>=
      (fun enc => (Tokenizer.build ["a", "b"] ["<pad>", "<unk>"]).batch_decode_2d enc false)
      = .ok [["a", "b"], ["b"]] :=
  C4_roundtrip_2d ["a", "b"] ["<pad>", "<unk>"] [["a", "b"], ["b"]] 512
    (by decide) (by decide)

/-! ## Claim C6 -/

/-- C6 counterexample: a patient with an empty real visit. The empty visit
is dimension-1-padded to all pads, decodes to the empty code list and is
dropped together with the placeholders, so the patient's true visit count
(2) is not restored (only 1 visit comes back). -/
theorem C6_counterexample :
    (Tokenizer.build ["a"] ["<pad>", "<unk>"]).batch_encode_3d [[[], ["a"]]]
        (true, true) (false, false) (10, 512) >>=
      (fun enc => (Tokenizer.build ["a"] ["<pad>", "<unk>"]).batch_decode_3d enc false)
      = .ok [[["a"]]]
    ∧ ([[["a"]]] : List (List (List String))) ≠ [[[], ["a"]]] := by
  decide

def pyMaxVal : List Nat → Nat
  | [] => 0
  | x :: xs => xs.foldl Nat.max x

theorem pyMax_eq_val {l : List Nat} (h : l ≠ []) : pyMax l = .ok (pyMaxVal l) := by
  cases l with
  | nil => exact absurd rfl h
  | cons x xs => rfl

theorem trunc3_false_false (batch : List (List (List String))) (max_length : Nat × Nat) :
    trunc3 batch (false, false) max_length = batch := rfl

theorem filter_ne_self_replicate {α : Type} [DecidableEq α] (k : Nat) (a : α) :
    (List.replicate k a).filter (fun x => x ≠ a) = [] := by
  induction k with
  | zero => rfl
  | succ n ih => rw [List.replicate_succ, List.filter_cons]; simp [ih]

theorem filter_pad_append {vis : List String} (k : Nat)
    (h : ∀ t ∈ vis, t ≠ "<pad>") :
    (vis ++ List.replicate k "<pad>").filter (fun t => t ≠ "<pad>") = vis := by
  rw [List.filter_append, filter_ne_self_replicate, List.append_nil,
    List.filter_eq_self.mpr (fun t ht => decide_eq_true (h t ht))]

theorem filter_placeholder (m1 : Nat) :
    ((["<pad>"] : List String) ++ List.replicate (m1 - List.length ["<pad>"]) "<pad>").filter
      (fun t => t ≠ "<pad>") = [] := by
  rw [List.filter_append, filter_ne_self_replicate, List.append_nil]
  rfl

/-- The pure-data core of the 3-D round trip: pad a patient's visit list with
placeholder visits, pad every visit's codes, then decode-filter the pads and
drop the empty visits — the original patient comes back provided its real
visits are pad-free and non-empty. -/
theorem batch_roundtrip_data (batch : List (List (List String))) (m0 m1 : Nat)
    (hnp : ∀ p ∈ batch, ∀ vis ∈ p, ∀ t ∈ vis, t ≠ "<pad>")
    (hvis : ∀ p ∈ batch, ∀ vis ∈ p, vis ≠ []) :
    ((padCodes (padVisits batch m0) m1).map
        (fun visits => visits.map fun vis => vis.filter fun t => t ≠ "<pad>")).map
      (fun visits => visits.filter fun vis => vis ≠ []) = batch := by
  unfold padCodes padVisits
  rw [List.map_map, List.map_map, List.map_map]
  have hcongr := List.map_congr_left (l := batch) (g := id) (fun p hp => by
    show ((((p ++ List.replicate (m0 - p.length) ["<pad>"]).map
        (fun vis => vis ++ List.replicate (m1 - vis.length) "<pad>")).map
        (fun vis => vis.filter fun t => t ≠ "<pad>")).filter fun vis => vis ≠ []) = id p
    rw [List.map_map, List.map_append, List.map_replicate]
    have h1 : p.map ((fun vis => vis.filter fun t => t ≠ "<pad>") ∘
        (fun vis => vis ++ List.replicate (m1 - vis.length) "<pad>")) = p := by
      have h1' := List.map_congr_left (l := p) (g := id)
        (fun vis hv => filter_pad_append (m1 - vis.length) (hnp p hp vis hv))
      rw [List.map_id] at h1'
      exact h1'
    rw [h1]
    simp only [Function.comp_apply]
    rw [filter_placeholder, List.filter_append, filter_ne_self_replicate,
      List.append_nil,
      List.filter_eq_self.mpr (fun vis hv => decide_eq_true (hvis p hp vis hv))]
    rfl)
  rw [List.map_id] at hcongr
  exact hcongr

/-- C6 amended: `batch_decode_3d` with `padding=false` removes exactly the
placeholder visits and restores each patient's true visit count, provided
every real visit is non-empty (an empty real visit is also dropped), all
tokens are registered and pad-free, the pad marker is registered, and some
patient has at least one visit. -/
theorem C6_amended_roundtrip_3d (tokens special_tokens : List String)
    (batch : List (List (List String))) (max_length : Nat × Nat) (padIdx : Nat)
    (hpad : dictGet "<pad>" (Vocabulary.build tokens special_tokens).token2idx = some padIdx)
    (hreg : ∀ p ∈ batch, ∀ vis ∈ p, ∀ t ∈ vis,
      (dictGet t (Vocabulary.build tokens special_tokens).token2idx).isSome)
    (hnp : ∀ p ∈ batch, ∀ vis ∈ p, ∀ t ∈ vis, t ≠ "<pad>")
    (hvis : ∀ p ∈ batch, ∀ vis ∈ p, vis ≠ [])
    (hne : ∃ p ∈ batch, p ≠ []) :
    (Tokenizer.build tokens special_tokens).batch_encode_3d batch (true, true)
        (false, false) max_length >>=
      (fun enc => (Tokenizer.build tokens special_tokens).batch_decode_3d enc false)
      = .ok batch := by
  have hInv : (Vocabulary.build tokens special_tokens).Inv :=
    Vocabulary.Inv_build tokens special_tokens
  obtain ⟨p₀, hp₀, hp₀ne⟩ := hne
  have hbne : batch ≠ [] := fun hc => by simp [hc] at hp₀
  set m0 := pyMaxVal (batch.map List.length) with hm0def
  have hlen_ne : batch.map List.length ≠ [] := by simpa using hbne
  have hMax0 : pyMax (batch.map List.length) = .ok m0 := pyMax_eq_val hlen_ne
  have hple : ∀ p ∈ batch, p.length ≤ m0 := fun p hp =>
    pyMax_le hMax0 _ (List.mem_map.mpr ⟨p, hp, rfl⟩)
  have hm0pos : 1 ≤ m0 :=
    Nat.le_trans (List.length_pos.mpr hp₀ne) (hple p₀ hp₀)
  have hppne : ∀ pp ∈ padVisits batch m0, pp ≠ [] := by
    intro pp hpp
    unfold padVisits at hpp
    obtain ⟨p, hp, rfl⟩ := List.mem_map.mp hpp
    refine List.length_pos.mp ?_
    rw [List.length_append, List.length_replicate]
    have := hple p hp
    omega
  have hinner : exceptMap (fun visits => pyMax (visits.map List.length))
      (padVisits batch m0)
      = .ok ((padVisits batch m0).map fun pp => pyMaxVal (pp.map List.length)) :=
    exceptMap_ok_of_forall (fun pp hpp => pyMax_eq_val (by simpa using hppne pp hpp))
  set m1 := pyMaxVal ((padVisits batch m0).map fun pp => pyMaxVal (pp.map List.length))
    with hm1def
  have hpbne : padVisits batch m0 ≠ [] := by
    unfold padVisits
    simpa using hbne
  have hMax1 : pyMaxNested (padVisits batch m0) = .ok m1 := by
    unfold pyMaxNested
    rw [hinner, exceptOk_bind]
    exact pyMax_eq_val (by simpa using hpbne)
  have hpadSome : (dictGet "<pad>"
      (Vocabulary.build tokens special_tokens).token2idx).isSome := by
    rw [hpad]; rfl
  have htok : ∀ visits ∈ padCodes (padVisits batch m0) m1, ∀ vis ∈ visits, ∀ t ∈ vis,
      (dictGet t (Vocabulary.build tokens special_tokens).token2idx).isSome := by
    intro visits hvisits vis hv t ht
    unfold padCodes at hvisits
    obtain ⟨pp, hpp, rfl⟩ := List.mem_map.mp hvisits
    obtain ⟨vis0, hvis0, rfl⟩ := List.mem_map.mp hv
    rcases List.mem_append.mp ht with ht' | ht'
    · unfold padVisits at hpp
      obtain ⟨p, hp, rfl⟩ := List.mem_map.mp hpp
      rcases List.mem_append.mp hvis0 with hv0 | hv0
      · exact hreg p hp vis0 hv0 t ht'
      · have hveq : vis0 = ["<pad>"] := List.eq_of_mem_replicate hv0
        subst hveq
        have hteq : t = "<pad>" := List.mem_singleton.mp ht'
        subst hteq
        exact hpadSome
    · have hteq : t = "<pad>" := List.eq_of_mem_replicate ht'
      subst hteq
      exact hpadSome
  have henc : (Tokenizer.build tokens special_tokens).batch_encode_3d batch
      (true, true) (false, false) max_length
      = .ok ((padCodes (padVisits batch m0) m1).map fun visits => visits.map fun vis =>
          vis.map fun t =>
            (dictGet t (Vocabulary.build tokens special_tokens).token2idx).getD 0) := by
    rw [batch_encode_3d_eq_prepare, prepare3d_true_true, trunc3_false_false,
      hMax0, exceptOk_bind, hMax1, exceptOk_bind]
    exact exceptMap_ok_of_forall (fun visits hvs =>
      exceptMap_ok_of_forall (fun vis hv => encode_row_ok (htok visits hvs vis hv)))
  rw [henc, exceptOk_bind]
  unfold Tokenizer.batch_decode_3d
  rw [exceptMap_map]
  have hd2 : exceptMap (fun visits =>
      (Tokenizer.build tokens special_tokens).batch_decode_2d
        (visits.map fun vis => vis.map fun t =>
          (dictGet t (Vocabulary.build tokens special_tokens).token2idx).getD 0) false)
      (padCodes (padVisits batch m0) m1)
      = .ok ((padCodes (padVisits batch m0) m1).map fun visits =>
          visits.map fun vis => vis.filter fun t => t ≠ "<pad>") := by
    refine exceptMap_ok_of_forall ?_
    intro visits hvs
    unfold Tokenizer.batch_decode_2d
    have hfd : exceptMap (exceptMap (Tokenizer.build tokens special_tokens).vocabulary.reverse)
        (visits.map fun vis => vis.map fun t =>
          (dictGet t (Vocabulary.build tokens special_tokens).token2idx).getD 0)
        = .ok visits := by
      rw [exceptMap_map]
      have h3 : exceptMap (fun vis =>
          exceptMap (Tokenizer.build tokens special_tokens).vocabulary.reverse
            (vis.map fun t =>
              (dictGet t (Vocabulary.build tokens special_tokens).token2idx).getD 0))
          visits = .ok (visits.map id) := by
        refine exceptMap_ok_of_forall ?_
        intro vis hv
        exact decode_row_ok hInv (htok visits hvs vis hv)
      rw [List.map_id] at h3
      exact h3
    rw [hfd, exceptOk_bind]
    rfl
  rw [hd2, exceptOk_bind]
  show Except.ok (((padCodes (padVisits batch m0) m1).map fun visits =>
      visits.map fun vis => vis.filter fun t => t ≠ "<pad>").map fun visits =>
        visits.filter fun vis => vis ≠ []) = .ok batch
  rw [batch_roundtrip_data batch m0 m1 hnp hvis]

/-- C6 amended witness: the 3-D round trip on a concrete two-patient batch
with non-empty visits over `{<pad>: 0, <unk>: 1, a: 2, b: 3}`. -/
theorem C6_amended_roundtrip_3d_witness :
    (Tokenizer.build ["a", "b"] ["<pad>", "<unk>"]).batch_encode_3d
        [[["a"], ["b", "a"]], [["b"]]] (true, true) (false, false) (10, 512) >>=
      (fun enc => (Tokenizer.build ["a", "b"] ["<pad>", "<unk>"]).batch_decode_3d enc false)
      = .ok [[["a"], ["b", "a"]], [["b"]]] :=
  C6_amended_roundtrip_3d ["a", "b"] ["<pad>", "<unk>"] [[["a"], ["b", "a"]], [["b"]]]
    (10, 512) 0 (by decide) (by decide) (by decide) (by decide)
    ⟨[["a"], ["b", "a"]], by decide, by decide⟩

end PyHealth
